import Mathlib

/-!
Verification development for the DefiVaultPro scan pipeline
(`defi_scanner.py`, `db.py`, `views/long_term.py`).

The Python source is shallowly embedded: machine floats are modelled as
exact rationals (every numeric value the claims touch is exactly
representable), Python exceptions as `Except Unit`, `datetime.utcnow()` as a
`Nat` clock supplied by the caller, and the SQLAlchemy-backed tables as
in-memory lists of rows.
-/

namespace DefiVaultPro

deriving instance DecidableEq for Except

/-- ASCII lowercasing, modelling Python `str.lower()` on the ASCII inputs the
pipeline handles. -/
def toLowerStr (s : String) : String := String.mk (s.toList.map Char.toLower)

/-- Digit run to a natural number. -/
def digitsVal (cs : List Char) : Nat :=
  cs.foldl (fun acc c => acc * 10 + (c.toNat - '0'.toNat)) 0

/-- Python `float(s)` on a string, for the decimal-literal fragment the
pipeline's data exercises: optional surrounding whitespace, optional sign,
digits with an optional fractional part.  Exponents, `inf`/`nan` and
underscore separators are not needed by any claim.  `none` models the
`ValueError` that Python raises; in particular decorated strings such as
`"$1,234.56"` or `"37.50%"` are rejected, exactly as `float()` rejects
them. -/
def pyFloatStr (s : String) : Option ℚ :=
  let cs := (s.toList.dropWhile Char.isWhitespace).reverse.dropWhile Char.isWhitespace |>.reverse
  let (sign, cs) : ℚ × List Char :=
    match cs with
    | '-' :: rest => (-1, rest)
    | '+' :: rest => (1, rest)
    | rest => (1, rest)
  let (intDs, rest) := cs.span Char.isDigit
  match rest with
  | [] =>
      if intDs.isEmpty then none
      else some (sign * (digitsVal intDs : ℚ))
  | '.' :: rest2 =>
      let (fracDs, rest3) := rest2.span Char.isDigit
      if rest3.isEmpty then
        if intDs.isEmpty && fracDs.isEmpty then none
        else some (sign * ((digitsVal intDs : ℚ) + (digitsVal fracDs : ℚ) / (10 : ℚ) ^ fracDs.length))
      else none
  | _ => none

/-- A JSON scalar as it reaches `float()` in the scanner: either a number or a
string. -/
inductive JVal where
  | num (q : ℚ)
  | str (s : String)
deriving DecidableEq, Repr

/-- Python `float(x)` applied to a JSON scalar: numbers pass through, strings
are parsed; an unparsable string raises `ValueError` (`Except.error`). -/
def pyFloat : JVal → Except Unit ℚ
  | .num q => .ok q
  | .str s =>
      match pyFloatStr s with
      | some q => .ok q
      | none => .error ()

/-- `pair.get(k, 0)` followed by `float(...)`: a missing field defaults to the
number `0`. -/
def pyFloatOpt (o : Option JVal) : Except Unit ℚ := pyFloat (o.getD (.num 0))

/-- Round a nonnegative rational to the nearest integer, ties to even — the
rounding used by Python's fixed-point string formatting (exact decimal
rounding; the claims only involve exactly-representable values). -/
def roundHalfEven (q : ℚ) : ℤ :=
  let f := q.floor
  let r := q - (f : ℚ)
  if r < 1 / 2 then f
  else if r > 1 / 2 then f + 1
  else if f % 2 = 0 then f else f + 1

/-- Render a natural number, inserting a comma every three digits, as Python's
`{:,}` grouping does.  Works on the reversed digit list. -/
def groupRev : List Char → List Char
  | a :: b :: c :: d :: rest => a :: b :: c :: ',' :: groupRev (d :: rest)
  | l => l

/-- Python `f"{x:,.0f}"` without the sign handling the pipeline never needs for
its nonnegative money fields (a `-` is still emitted for negative input). -/
def fmtComma0 (q : ℚ) : String :=
  let n := (roundHalfEven |q|).toNat
  let ds := (toString n).toList
  let s := String.mk (groupRev ds.reverse).reverse
  if q < 0 then "-" ++ s else s

/-- Python `f"{x:.2f}"`. -/
def fmt2 (q : ℚ) : String :=
  let n := (roundHalfEven (|q| * 100)).toNat
  let ip := n / 100
  let fp := n % 100
  (if q < 0 then "-" else "")
    ++ toString ip ++ "."
    ++ (if fp < 10 then "0" ++ toString fp else toString fp)

/-- Python `f"{x:.4f}"`. -/
def fmt4 (q : ℚ) : String :=
  let n := (roundHalfEven (|q| * 10000)).toNat
  let ip := n / 10000
  let fp := n % 10000
  let fpStr := toString fp
  let pad := String.mk (List.replicate (4 - fpStr.length) '0')
  (if q < 0 then "-" else "") ++ toString ip ++ "." ++ pad ++ fpStr

-- ---------------------------------------------------------------------------
-- Configuration (config.py) and module constants (defi_scanner.py)
-- ---------------------------------------------------------------------------

/-- `config.MIN_APY`. -/
def MIN_APY : ℚ := 5

/-- `config.MIN_TVL`. -/
def MIN_TVL : ℚ := 100000

/-- `config.FOCUS_PROTOCOLS`. -/
def FOCUS_PROTOCOLS : List String := ["aave", "compound", "uniswap", "curve"]

/-- `config.MEME_CHAINS`. -/
def MEME_CHAINS : List String := ["ethereum", "bsc", "solana"]

/-- `CHAIN_RISK_SCORES` from `defi_scanner.py`. -/
def CHAIN_RISK_SCORES : List (String × ℚ) :=
  [("ethereum", 1 / 2), ("bsc", 1), ("solana", 3 / 2)]

-- ---------------------------------------------------------------------------
-- risk_score (defi_scanner.py lines 90-96)
-- ---------------------------------------------------------------------------

/-- `risk_score(apy, tvl, project, chain)`: base 1.0, +1 if apy > 20, +1 if
tvl < 1_000_000, +0.5 if the lowercased project is outside
`FOCUS_PROTOCOLS`, plus `CHAIN_RISK_SCORES.get(chain.lower(), 1.0)`. -/
def riskScore (apy tvl : ℚ) (project chain : String) : ℚ :=
  let s1 : ℚ := 1
  let s2 := if apy > 20 then s1 + 1 else s1
  let s3 := if tvl < 1000000 then s2 + 1 else s2
  let s4 := if toLowerStr project ∈ FOCUS_PROTOCOLS then s3 else s3 + 1 / 2
  s4 + ((CHAIN_RISK_SCORES.lookup (toLowerStr chain)).getD 1)

-- ---------------------------------------------------------------------------
-- Dataclasses (defi_scanner.py lines 24-60)
-- ---------------------------------------------------------------------------

/-- The `YieldEntry` dataclass. -/
structure YieldEntry where
  chain : String
  protocol : String
  project : String
  symbol : String
  type : String
  apy : ℚ
  apy_str : String
  ror : ℚ
  tvl : ℚ
  tvl_str : String
  risk : String
  gas_fee : ℚ
  gas_fee_str : String
  link : String
  contract_address : String
  pool_id : String
  token_price : ℚ
  token_link : String
deriving DecidableEq, Repr

/-- The `MemeEntry` dataclass. -/
structure MemeEntry where
  chain : String
  symbol : String
  price_usd : String
  liquidity_usd : String
  volume_24h_usd : String
  change_24h_pct : String
  risk : String
  url : String
  contract_address : String
  project : String
  name : String
  market_cap : ℚ
  growth_potential : String
  pool_id : String
deriving DecidableEq, Repr

-- ---------------------------------------------------------------------------
-- Raw provider records (the untrusted JSON shapes the fetch stages read)
-- ---------------------------------------------------------------------------

/-- One raw pool record from the yields provider.  `none` models a missing
key; numeric fields are numbers here because `fetch_yields` compares them
with `>=` directly (a string would raise `TypeError`, which no claim
exercises). -/
structure RawPool where
  chain : Option String := none
  project : Option String := none
  symbol : Option String := none
  poolMeta : Option String := none
  apy : Option ℚ := none
  tvlUsd : Option ℚ := none
  url : Option String := none
  pool : Option String := none
  poolId : Option String := none
deriving DecidableEq, Repr

/-- One raw trading-pair record from the meme provider.  The fields the
scanner passes through `float()` are `JVal` (number or string). -/
structure RawPair where
  chainId : Option String := none
  liquidityUsd : Option JVal := none
  volumeH24 : Option JVal := none
  priceChangeH24 : Option JVal := none
  priceUsd : Option JVal := none
  pairAddress : Option String := none
  url : Option String := none
  baseSymbol : Option String := none
  baseName : Option String := none
  baseAddress : Option String := none
  dexId : Option String := none
  fdv : Option JVal := none
deriving DecidableEq, Repr

/-- The dictionary `async_request` hands back: either the `{"error": ...}`
marker built after a caught failure, or the decoded payload. -/
inductive Resp (α : Type) where
  | errMarker
  | data (a : α)
deriving DecidableEq, Repr

-- ---------------------------------------------------------------------------
-- async_request (defi_scanner.py lines 75-88)
-- ---------------------------------------------------------------------------

/-- What one HTTP attempt against the provider does: succeed with a decoded
payload, fail with an exception of class `aiohttp.ClientError` (the class the
`except` clause catches), or fail with an exception outside that class, such
as the `asyncio.TimeoutError` raised when the 15-second `ClientTimeout`
expires, or a `json` decode error. -/
inductive AttemptOutcome (α : Type) where
  | ok (a : α)
  | clientErr
  | fatal
deriving DecidableEq, Repr

/-- Observable trace of one `async_request` call: its result (`Except.error`
models an exception escaping to the caller), how many HTTP attempts ran, and
the backoff delays slept between failed attempts. -/
structure ReqTrace (α : Type) where
  result : Except Unit (Resp α)
  attempts : Nat
  delays : List Nat
deriving Repr

/-- The retry loop of `async_request`, recursing on the remaining attempts of
`retries = 3`; `a` is the 0-based attempt index.  A `clientErr` on the last
attempt returns the `{"error": ...}` marker; earlier `clientErr`s sleep
`2 ** attempt` and retry; a `fatal` outcome propagates at once (it is not
caught). -/
def asyncReqAux (outs : Nat → AttemptOutcome α) : Nat → Nat → ReqTrace α
  | 0, _ => ⟨.ok .errMarker, 0, []⟩
  | remaining + 1, a =>
    match outs a with
    | .ok x => ⟨.ok (.data x), 1, []⟩
    | .fatal => ⟨.error (), 1, []⟩
    | .clientErr =>
        if remaining = 0 then ⟨.ok .errMarker, 1, []⟩
        else
          let t := asyncReqAux outs remaining (a + 1)
          ⟨t.result, t.attempts + 1, 2 ^ a :: t.delays⟩

/-- `async_request(url)`, driven by the outcome of each attempt. -/
def asyncRequest (outs : Nat → AttemptOutcome α) : ReqTrace α :=
  asyncReqAux outs 3 0

-- ---------------------------------------------------------------------------
-- fetch_yields (defi_scanner.py lines 104-144)
-- ---------------------------------------------------------------------------

/-- The filter applied to each pool: `apy >= MIN_APY`, `tvlUsd >= MIN_TVL`,
and the lowercased project in `FOCUS_PROTOCOLS`; missing numeric fields
default to `0` and a missing project to `""`. -/
def keepPool (p : RawPool) : Bool :=
  decide (p.apy.getD 0 ≥ MIN_APY) && decide (p.tvlUsd.getD 0 ≥ MIN_TVL)
    && decide (toLowerStr (p.project.getD "") ∈ FOCUS_PROTOCOLS)

/-- Build the `YieldEntry` appended for a kept pool, including the constant
`estimate_gas_fee` enrichment (`fee = 2.5`, `price = 1.0`). -/
def normPool (p : RawPool) : YieldEntry :=
  let apy := p.apy.getD 0
  let tvl := p.tvlUsd.getD 0
  let gasUrl := "https://gasstation/" ++ toLowerStr (p.chain.getD "")
  let ror := apy / riskScore apy tvl (p.project.getD "") (p.chain.getD "")
  let link :=
    match p.url with
    | some u => if u = "" then "https://defillama.com/yields/pool/" ++ p.pool.getD "" else u
    | none => "https://defillama.com/yields/pool/" ++ p.pool.getD ""
  { chain := toLowerStr (p.chain.getD "unknown")
    protocol := p.project.getD "Unknown"
    project := p.project.getD "Unknown"
    symbol := p.symbol.getD "?"
    type := p.poolMeta.getD "Unknown"
    apy := apy
    apy_str := fmt2 apy ++ "%"
    ror := ror
    tvl := tvl
    tvl_str := "$" ++ fmtComma0 tvl
    risk := if ror > 2 then "Low" else if ror > 1 then "Medium" else "High"
    gas_fee := 5 / 2
    gas_fee_str := "$" ++ fmt2 (5 / 2)
    link := link
    contract_address := p.pool.getD "unknown"
    pool_id := p.poolId.getD (p.pool.getD "unknown")
    token_price := 1
    token_link := gasUrl }

/-- `fetch_yields()`: an exception from `async_request` propagates (there is
no handler); the `{"error"}` marker yields `[]`; otherwise every pool passing
the threshold/project filter is normalized, in order. -/
def fetchYields (r : Except Unit (Resp (List RawPool))) : Except Unit (List YieldEntry) :=
  match r with
  | .error e => .error e
  | .ok .errMarker => .ok []
  | .ok (.data pools) => .ok ((pools.filter keepPool).map normPool)

-- ---------------------------------------------------------------------------
-- fetch_meme_coins (defi_scanner.py lines 149-186)
-- ---------------------------------------------------------------------------

/-- The `MemeEntry` constructed for a pair that passed the chain and
liquidity/volume checks, from its parsed numeric fields. -/
def mkMemeEntry (nEntries : Nat) (p : RawPair)
    (liquidity volume change price mcap : ℚ) : MemeEntry :=
  let chain := toLowerStr (p.chainId.getD "unknown")
  let pairAddress := p.pairAddress.getD ""
  { chain := chain
    symbol := p.baseSymbol.getD "Unknown"
    price_usd := if price < 1 then "$" ++ fmt4 price else "$" ++ fmt2 price
    liquidity_usd := "$" ++ fmtComma0 liquidity
    volume_24h_usd := "$" ++ fmtComma0 volume
    change_24h_pct := fmt2 change ++ "%"
    risk := if |change| > 20 then "High" else "Medium"
    url :=
      if pairAddress ≠ "" then
        match p.url with
        | some u =>
            if u = "" then "https://dexscreener.com/" ++ chain ++ "/" ++ pairAddress
            else u
        | none => "https://dexscreener.com/" ++ chain ++ "/" ++ pairAddress
      else "https://dexscreener.com"
    contract_address := p.baseAddress.getD "unknown"
    project := p.dexId.getD "Unknown"
    name := p.baseName.getD "Unknown"
    market_cap := mcap
    growth_potential := fmt2 change ++ "%"
    pool_id := p.pairAddress.getD ("unknown_" ++ toString nEntries) }

/-- Process one raw pair, given `len(entries)` at the time of the append
(used only for the `pool_id` fallback).  Returns `ok none` for a pair skipped
by `continue`, `ok (some m)` for an appended entry, and `error` when one of
the `float()` calls raises.  Evaluation order mirrors the source: the chain
check, then liquidity/volume/change parsing, then the liquidity/volume
threshold, then the `priceUsd` and `fdv` parses inside the constructor
call. -/
def normMemePair (nEntries : Nat) (p : RawPair) : Except Unit (Option MemeEntry) :=
  if toLowerStr (p.chainId.getD "unknown") ∈ MEME_CHAINS then
    match pyFloatOpt p.liquidityUsd, pyFloatOpt p.volumeH24, pyFloatOpt p.priceChangeH24 with
    | .ok liquidity, .ok volume, .ok change =>
        if liquidity < 10000 ∨ volume < 10000 then .ok none
        else
          match pyFloatOpt p.priceUsd, pyFloatOpt p.fdv with
          | .ok price, .ok mcap =>
              .ok (some (mkMemeEntry nEntries p liquidity volume change price mcap))
          | _, _ => .error ()
    | _, _, _ => .error ()
  else .ok none

/-- The inner `for pair in result.get("pairs", [])` loop, carrying the
accumulated `entries`. -/
def processPairs : List RawPair → List MemeEntry → Except Unit (List MemeEntry)
  | [], acc => .ok acc
  | p :: ps, acc =>
      match normMemePair acc.length p with
      | .error e => .error e
      | .ok none => processPairs ps acc
      | .ok (some m) => processPairs ps (acc ++ [m])

/-- The outer `for result in results` loop: an `{"error"}` marker is skipped
by `continue`, a payload's pairs are processed into the shared `entries`. -/
def processResults : List (Resp (List RawPair)) → List MemeEntry → Except Unit (List MemeEntry)
  | [], acc => .ok acc
  | .errMarker :: rs, acc => processResults rs acc
  | .data ps :: rs, acc =>
      match processPairs ps acc with
      | .error e => .error e
      | .ok acc2 => processResults rs acc2

/-- `asyncio.gather` over the per-keyword requests: the first exception
propagates to the caller. -/
def gatherE : List (Except Unit α) → Except Unit (List α)
  | [] => .ok []
  | .error e :: _ => .error e
  | .ok a :: rest =>
      match gatherE rest with
      | .error e => .error e
      | .ok as2 => .ok (a :: as2)

/-- `fetch_meme_coins()`, driven by the per-keyword `async_request` results
(each element is what one keyword's request produced, `Except.error` when
that request raised). -/
def fetchMemeCoins (rs : List (Except Unit (Resp (List RawPair)))) :
    Except Unit (List MemeEntry) :=
  match gatherE rs with
  | .error e => .error e
  | .ok rs2 => processResults rs2 []

-- ---------------------------------------------------------------------------
-- The opportunities table (db.py: Opportunity, save_opportunities,
-- get_opportunities) and the scanner's upsert (save_results_to_db)
-- ---------------------------------------------------------------------------

/-- One row of the `opportunities` table.  `last_updated` is the `Nat` model
clock. -/
structure OppRow where
  id : Nat
  project : String
  symbol : String
  chain : String
  apy : ℚ
  tvl : ℚ
  risk : String
  type : String
  contract_address : String
  last_updated : Nat
  is_active : Bool
deriving DecidableEq, Repr

/-- The `opportunities` table plus the autoincrement counter. -/
structure OppDB where
  rows : List OppRow
  nextId : Nat
deriving DecidableEq, Repr

/-- The empty database. -/
def emptyOppDB : OppDB := ⟨[], 0⟩

/-- The dictionary `save_results_to_db` passes to `db.save_opportunities`:
`id` is `None` for an insert or the existing row's id for an update. -/
structure OppData where
  id : Option Nat
  project : String
  symbol : String
  chain : String
  apy : ℚ
  tvl : ℚ
  risk : String
  type : String
  contract_address : String
deriving DecidableEq, Repr

/-- The row `save_opportunities` constructs from one dict: `last_updated`
refreshed to now, `is_active` forced to `True`. -/
def mkOppRow (rid : Nat) (d : OppData) (now : Nat) : OppRow :=
  { id := rid, project := d.project, symbol := d.symbol, chain := d.chain
    apy := d.apy, tvl := d.tvl, risk := d.risk, type := d.type
    contract_address := d.contract_address, last_updated := now, is_active := true }

/-- `session.merge(opp)`: with a `None` primary key the row is inserted under
a fresh autoincrement id; with an explicit id it replaces the row carrying
that id, or is inserted if no such row exists. -/
def mergeOpp (db : OppDB) (d : OppData) (now : Nat) : OppDB :=
  match d.id with
  | none => ⟨db.rows ++ [mkOppRow db.nextId d now], db.nextId + 1⟩
  | some i =>
      if db.rows.any (fun r => r.id == i) then
        ⟨db.rows.map (fun r => if r.id = i then mkOppRow i d now else r), db.nextId⟩
      else ⟨db.rows ++ [mkOppRow i d now], max db.nextId (i + 1)⟩

/-- `db.save_opportunities(opp_data)` at model time `now`. -/
def saveOpportunities (db : OppDB) (ds : List OppData) (now : Nat) : OppDB :=
  ds.foldl (fun db d => mergeOpp db d now) db

/-- Descending insertion by `tvl`, modelling `ORDER BY tvl DESC`. -/
def insertByTvl (r : OppRow) : List OppRow → List OppRow
  | [] => [r]
  | x :: xs => if r.tvl > x.tvl then r :: x :: xs else x :: insertByTvl r xs

/-- Sort rows by `tvl` descending. -/
def sortByTvl (l : List OppRow) : List OppRow := l.foldr insertByTvl []

/-- `db.get_opportunities(chain, limit)`: active rows, optional chain filter,
ordered by tvl descending, truncated to `limit` (default 50). -/
def getOpportunities (db : OppDB) (chain : Option String := none)
    (limit : Nat := 50) : List OppRow :=
  let q := db.rows.filter (fun r => r.is_active)
  let q :=
    match chain with
    | some c => q.filter (fun r => r.chain == c)
    | none => q
  (sortByTvl q).take limit

/-- One iteration of `save_results_to_db`'s per-entry body (the pipeline's
upsert): look the key up among the top-50-by-tvl active rows of the entry's
chain, then update under the found id or insert under a fresh one.  The
retry/backoff wrapper is invisible here because the pure store never
fails. -/
def upsertYield (db : OppDB) (e : YieldEntry) (now : Nat) : OppDB :=
  saveOpportunities db
    [{ id := (((getOpportunities db (some e.chain)).filter
            (fun o => o.contract_address == e.contract_address)).head?).map OppRow.id
       project := e.project, symbol := e.symbol, chain := e.chain
       apy := e.apy, tvl := e.tvl, risk := e.risk, type := e.type
       contract_address := e.contract_address }] now

/-- `save_results_to_db(entries)` at model time `now`. -/
def saveResultsToDb (db : OppDB) (entries : List YieldEntry) (now : Nat) : OppDB :=
  entries.foldl (fun db e => upsertYield db e now) db

-- ---------------------------------------------------------------------------
-- The meme_opportunities table (db.py: save_meme_opportunities) and the
-- dict shape the scanner hands it
-- ---------------------------------------------------------------------------

/-- A Python value inside a record dict. -/
inductive PyVal where
  | pstr (s : String)
  | pnum (q : ℚ)
  | pnone
deriving DecidableEq, Repr

/-- `dataclasses.asdict` of a `MemeEntry`: its keys are exactly the dataclass
field names, in declaration order. -/
def memeAsdict (m : MemeEntry) : List (String × PyVal) :=
  [("chain", .pstr m.chain), ("symbol", .pstr m.symbol),
   ("price_usd", .pstr m.price_usd), ("liquidity_usd", .pstr m.liquidity_usd),
   ("volume_24h_usd", .pstr m.volume_24h_usd),
   ("change_24h_pct", .pstr m.change_24h_pct), ("risk", .pstr m.risk),
   ("url", .pstr m.url), ("contract_address", .pstr m.contract_address),
   ("project", .pstr m.project), ("name", .pstr m.name),
   ("market_cap", .pnum m.market_cap),
   ("growth_potential", .pstr m.growth_potential), ("pool_id", .pstr m.pool_id)]

/-- `data[k]`: a missing key raises `KeyError`. -/
def dictGet (d : List (String × PyVal)) (k : String) : Except Unit PyVal :=
  match d.lookup k with
  | some v => .ok v
  | none => .error ()

/-- One row of the `meme_opportunities` table; the column values keep the
`PyVal` the dict supplied. -/
structure MemeRow where
  id : PyVal
  project : PyVal
  name : PyVal
  symbol : PyVal
  chain : PyVal
  price : PyVal
  market_cap : PyVal
  risk : PyVal
  growth_potential : PyVal
  source_url : PyVal
  contract_address : PyVal
  last_updated : Nat
  is_active : Bool
deriving DecidableEq, Repr

/-- The `meme_opportunities` table plus the autoincrement counter. -/
structure MemeDB where
  rows : List MemeRow
  nextId : Nat
deriving DecidableEq, Repr

/-- The empty meme table. -/
def emptyMemeDB : MemeDB := ⟨[], 0⟩

/-- `session.merge` for a meme row (same primary-key semantics as
`mergeOpp`). -/
def mergeMeme (mdb : MemeDB) (r : MemeRow) : MemeDB :=
  match r.id with
  | .pnone => ⟨mdb.rows ++ [{ r with id := .pnum mdb.nextId }], mdb.nextId + 1⟩
  | rid =>
      if mdb.rows.any (fun x => x.id == rid) then
        ⟨mdb.rows.map (fun x => if x.id = rid then r else x), mdb.nextId⟩
      else ⟨mdb.rows ++ [r], mdb.nextId⟩

/-- The loop body of `save_meme_opportunities` inside the session: each dict
is read with direct indexing (`data['id']`, `data['price']`, ...), so a
missing key raises `KeyError` and aborts the whole session. -/
def buildMemeRows (mdb : MemeDB) (ds : List (List (String × PyVal))) (now : Nat) :
    Except Unit MemeDB :=
  match ds with
  | [] => .ok mdb
  | d :: rest =>
      match dictGet d "id", dictGet d "project", dictGet d "name",
            dictGet d "symbol", dictGet d "chain", dictGet d "price",
            dictGet d "market_cap", dictGet d "risk",
            dictGet d "growth_potential", dictGet d "contract_address" with
      | .ok vid, .ok vproject, .ok vname, .ok vsymbol, .ok vchain, .ok vprice,
        .ok vmcap, .ok vrisk, .ok vgrowth, .ok vca =>
          buildMemeRows
            (mergeMeme mdb
              { id := vid, project := vproject, name := vname, symbol := vsymbol
                chain := vchain, price := vprice, market_cap := vmcap
                risk := vrisk, growth_potential := vgrowth
                source_url := ((d.lookup "source_url").getD .pnone)
                contract_address := vca, last_updated := now, is_active := true })
            rest now
      | _, _, _, _, _, _, _, _, _, _ => .error ()

/-- `db.save_meme_opportunities(meme_data)`: a `KeyError` anywhere in the
batch is caught by the outer `except`, the session context manager rolls the
whole session back, and the function returns `False` with the table
unchanged. -/
def saveMemeOpportunities (mdb : MemeDB) (ds : List (List (String × PyVal)))
    (now : Nat) : MemeDB × Bool :=
  match buildMemeRows mdb ds now with
  | .ok mdb2 => (mdb2, true)
  | .error _ => (mdb, false)

-- ---------------------------------------------------------------------------
-- main_loop (defi_scanner.py lines 238-255)
-- ---------------------------------------------------------------------------

/-- One iteration of `main_loop` up to (and including) reaching
`asyncio.sleep`.  Inputs: what the yields request produced, what each
per-keyword meme request produced, and whether the snapshot file write
succeeds.  The body has no exception handler, so any `Except.error` escaping
a stage terminates the loop (result `.error`); `.ok` means the iteration
reached the sleep stage with the given store states. -/
def mainLoopBody (yr : Except Unit (Resp (List RawPool)))
    (mrs : List (Except Unit (Resp (List RawPair))))
    (snapshotOk : Bool) (db : OppDB) (mdb : MemeDB) (now : Nat) :
    Except Unit (OppDB × MemeDB) :=
  match fetchYields yr with
  | .error e => .error e
  | .ok ys =>
      match fetchMemeCoins mrs with
      | .error e => .error e
      | .ok ms =>
          let db2 := if ys.isEmpty then db else saveResultsToDb db ys now
          let mdb2 :=
            if ms.isEmpty then mdb
            else (saveMemeOpportunities mdb (ms.map memeAsdict) now).1
          if snapshotOk then .ok (db2, mdb2) else .error ()

-- ---------------------------------------------------------------------------
-- Dashboard-side numeric parsing (views/long_term.py lines 110-120)
-- ---------------------------------------------------------------------------

/-- Python `str.rstrip("%")`. -/
def rstripPct (s : String) : String :=
  String.mk (s.toList.reverse.dropWhile (fun c => c == '%')).reverse

/-- Python `str.lstrip("$")`. -/
def lstripDollar (s : String) : String :=
  String.mk (s.toList.dropWhile (fun c => c == '$'))

/-- Python `str.replace(",", "")`. -/
def stripCommas (s : String) : String :=
  String.mk (s.toList.filter (fun c => c != ','))

/-- The view's apy parse: `float(str(apy_str).rstrip("%"))`; `none` models the
`except: pass` path, which leaves the original string in place. -/
def viewParseApy (s : String) : Option ℚ := pyFloatStr (rstripPct s)

/-- The view's tvl parse:
`float(str(tvl_str).lstrip("$").replace(",", ""))`; `none` models the
`except: pass` path. -/
def viewParseTvl (s : String) : Option ℚ := pyFloatStr (stripCommas (lstripDollar s))

-- ---------------------------------------------------------------------------
-- Spec-side description of the risk scorer, and record keys
-- ---------------------------------------------------------------------------

/-- The per-chain risk weight as the spec describes it: a lookup-table value
defaulting to 1.0 for chains outside the table. -/
def chainRiskWeight (chain : String) : ℚ :=
  (CHAIN_RISK_SCORES.lookup (toLowerStr chain)).getD 1

/-- The yield risk function exactly as the spec's words give it, to be
compared with the source-derived `riskScore`: base 1.0, +1 if apy > 20, +1 if
tvl < 1,000,000, plus the per-chain weight, plus 0.5 if the project is
outside the focus list. -/
def riskScoreSpec (apy tvl : ℚ) (project chain : String) : ℚ :=
  1 + (if apy > 20 then 1 else 0) + (if tvl < 1000000 then 1 else 0)
    + chainRiskWeight chain
    + (if toLowerStr project ∈ FOCUS_PROTOCOLS then 0 else 1 / 2)

/-- The (contract_address, chain) key of a scanned yield entry. -/
def yieldKey (e : YieldEntry) : String × String := (e.contract_address, e.chain)

/-- The (contract_address, chain) key of a stored row. -/
def rowKey (r : OppRow) : String × String := (r.contract_address, r.chain)

/-- The (contract_address, chain) key of a meme entry (the spec's
deduplication key, up to component order). -/
def memeKey (m : MemeEntry) : String × String := (m.contract_address, m.chain)

/-- The key a raw pair would be stored under. -/
def pairKey (p : RawPair) : String × String :=
  (p.baseAddress.getD "unknown", toLowerStr (p.chainId.getD "unknown"))

/-- Whether a raw pair survives the meme chain/liquidity/volume filters and
parses cleanly, i.e. contributes an entry to the batch. -/
def keptPair (p : RawPair) : Bool :=
  match normMemePair 0 p with
  | .ok (some _) => true
  | _ => false

-- ---------------------------------------------------------------------------
-- Concrete fixtures used by counterexamples and witnesses
-- ---------------------------------------------------------------------------

/-- A yield entry fixture with the given key, tvl and apy. -/
def mkYE (ca : String) (tvl apy : ℚ) : YieldEntry :=
  { chain := "ethereum", protocol := "aave", project := "aave", symbol := "X",
    type := "t", apy := apy, apy_str := "10.00%", ror := 1, tvl := tvl,
    tvl_str := "$0", risk := "Low", gas_fee := 5 / 2, gas_fee_str := "$2.50",
    link := "", contract_address := ca, pool_id := ca, token_price := 1,
    token_link := "" }

/-- 51 distinct keys on one chain (tvl descending), then a repeat upsert of
the lowest-tvl key: the duplicate check only consults the 50 highest-tvl
rows, so the repeat is inserted a second time. -/
def c1entries : List YieldEntry :=
  ((List.range 51).map (fun i => mkYE ("c" ++ toString i) (1000 - (i : ℚ)) 10))
    ++ [mkYE "c50" 950 10]

/-- A qualifying meme pair whose 24-hour change is +35%. -/
def p35 : RawPair :=
  { chainId := some "ethereum", liquidityUsd := some (.num 20000),
    volumeH24 := some (.num 20000), priceChangeH24 := some (.num 35),
    pairAddress := some "0xp", baseSymbol := some "PEPE",
    baseName := some "Pepe", baseAddress := some "0xtoken",
    dexId := some "uniswap", fdv := some (.num 1000) }

/-- The entry the scanner builds from `p35`. -/
def m35 : MemeEntry :=
  { chain := "ethereum", symbol := "PEPE", price_usd := "$0.0000",
    liquidity_usd := "$20,000", volume_24h_usd := "$20,000",
    change_24h_pct := "35.00%", risk := "High",
    url := "https://dexscreener.com/ethereum/0xp",
    contract_address := "0xtoken", project := "uniswap", name := "Pepe",
    market_cap := 1000, growth_potential := "35.00%", pool_id := "0xp" }

/-- The spec's worked scoring example as a raw pool: apy 25, tvl 500,000,
focus project, chain weight 1.0. -/
def p8 : RawPool :=
  { chain := some "bsc", project := some "aave", symbol := some "USDC",
    apy := some 25, tvlUsd := some 500000, pool := some "0xpool" }

/-- A pool that passes every threshold filter but carries no symbol and no
pool/contract identifier. -/
def pBad : RawPool :=
  { project := some "aave", apy := some 10, tvlUsd := some 200000 }

/-- A qualifying pair whose liquidity field is the decorated string
`"$1,234.56"`: `float()` raises on it. -/
def badPair : RawPair :=
  { chainId := some "ethereum", liquidityUsd := some (.str "$1,234.56"),
    volumeH24 := some (.num 20000), priceChangeH24 := some (.num 5) }

/-- A qualifying pair returned identically by two keyword queries. -/
def dupPair : RawPair :=
  { chainId := some "ethereum", liquidityUsd := some (.num 20000),
    volumeH24 := some (.num 20000), priceChangeH24 := some (.num 5),
    priceUsd := some (.num 2), pairAddress := some "0xdup",
    baseSymbol := some "DOGE", baseName := some "Doge",
    baseAddress := some "0xmeme", dexId := some "uniswap",
    fdv := some (.num 5000) }

/-- The row an upsert of entry `e` stores under id `i` at time `now`
(`mkOppRow` applied to the dict `save_results_to_db` builds from `e`). -/
def updRow (e : YieldEntry) (i now : Nat) : OppRow :=
  { id := i, project := e.project, symbol := e.symbol, chain := e.chain,
    apy := e.apy, tvl := e.tvl, risk := e.risk, type := e.type,
    contract_address := e.contract_address, last_updated := now, is_active := true }

/-- Invariant carried through a sequence of upserts: `ps` is the list of
keys upserted so far, the stored keys and ids are duplicate-free, ids stay
below the autoincrement counter, every row is active, and every stored key
was upserted. -/
structure OppInv (ps : List (String × String)) (db : OppDB) : Prop where
  keysNodup : (db.rows.map rowKey).Nodup
  idsNodup : (db.rows.map OppRow.id).Nodup
  idsLt : ∀ r ∈ db.rows, r.id < db.nextId
  allActive : ∀ r ∈ db.rows, r.is_active = true
  keysSub : ∀ r ∈ db.rows, rowKey r ∈ ps

/-- An endpoint whose every attempt raises outside the caught class
(e.g. a timeout). -/
def allFatal : Nat → AttemptOutcome (List RawPool) := fun _ => .fatal

/-- An endpoint whose every attempt fails with an `aiohttp.ClientError`. -/
def allClientErr : Nat → AttemptOutcome (List RawPool) := fun _ => .clientErr

/-- How many qualifying pairs with key `k` the gathered keyword results
contain (error-marker results contribute nothing). -/
def qualCount (k : String × String) : List (Resp (List RawPair)) → Nat
  | [] => 0
  | .errMarker :: rs => qualCount k rs
  | .data ps :: rs =>
      (ps.filter (fun p => keptPair p && (pairKey p == k))).length + qualCount k rs

/-- Two keyword queries both returning `dupPair`. -/
def c4rs : List (Except Unit (Resp (List RawPair))) :=
  [.ok (.data [dupPair]), .ok (.data [dupPair])]

/-- The entry the scanner builds from `dupPair`. -/
def mDup : MemeEntry :=
  { chain := "ethereum", symbol := "DOGE", price_usd := "$2.00",
    liquidity_usd := "$20,000", volume_24h_usd := "$20,000",
    change_24h_pct := "5.00%", risk := "Medium",
    url := "https://dexscreener.com/ethereum/0xdup",
    contract_address := "0xmeme", project := "uniswap", name := "Doge",
    market_cap := 5000, growth_potential := "5.00%", pool_id := "0xdup" }

-- ===========================================================================
-- Theorems
-- ===========================================================================

-- Helper facts --------------------------------------------------------------

/-- The retry loop performs at most as many attempts as it has remaining. -/
theorem asyncReqAux_attempts_le (outs : Nat → AttemptOutcome α) :
    ∀ rem a, (asyncReqAux outs rem a).attempts ≤ rem := by
  intro rem
  induction rem with
  | zero => intro a; simp [asyncReqAux]
  | succ n ih =>
      intro a
      rw [asyncReqAux]
      cases outs a with
      | ok x => exact Nat.le_add_left 1 n
      | fatal => exact Nat.le_add_left 1 n
      | clientErr =>
          rcases Nat.eq_zero_or_pos n with hn | hn
          · subst hn; simp
          · have hn2 : ¬n = 0 := Nat.pos_iff_ne_zero.mp hn
            simp only [if_neg hn2]
            have h3 := ih (a + 1)
            show (asyncReqAux outs n (a + 1)).attempts + 1 ≤ n + 1
            omega

-- C3 ------------------------------------------------------------------------

/-- C3: every dict produced by `asdict` of a `MemeEntry` lacks the `id` and
`price` keys that `save_meme_opportunities` reads with direct indexing; the
`KeyError` is caught, the function returns `False`, the rollback leaves the
meme table unchanged, and therefore every batch of scanned meme entries
persists zero records. -/
theorem meme_batches_never_persisted :
    (∀ m : MemeEntry,
      (memeAsdict m).lookup "id" = none ∧ (memeAsdict m).lookup "price" = none)
    ∧ (∀ (mdb : MemeDB) (es : List MemeEntry) (now : Nat),
        saveMemeOpportunities mdb (es.map memeAsdict) now = (mdb, es.isEmpty)) := by
  constructor
  · intro m
    exact ⟨rfl, rfl⟩
  · intro mdb es now
    cases es with
    | nil => rfl
    | cons e rest => rfl

-- C5 ------------------------------------------------------------------------

unseal Rat.add Rat.mul Rat.inv Rat.sub Rat.ofScientific in
/-- C5 counterexample: the parsing applied to raw provider records is bare
`float()`: it does not strip decoration (it raises `ValueError` on
`"$1,234.56"` and `"37.50%"`), an unparsable value raises instead of
returning 0.0, and the raised error aborts the record and the whole meme
batch. -/
theorem raw_parse_not_stripping :
    pyFloat (.str "$1,234.56") = .error ()
    ∧ pyFloat (.str "37.50%") = .error ()
    ∧ pyFloat (.str "abc") = .error ()
    ∧ normMemePair 0 badPair = .error ()
    ∧ fetchMemeCoins [.ok (.data [badPair])] = .error () := by
  refine ⟨by decide, by decide, by decide, by decide, by decide⟩

unseal Rat.add Rat.mul Rat.inv Rat.sub Rat.ofScientific in
/-- C5 amended: on raw provider records the scanner applies bare `float()`:
numbers pass through unchanged and plain decimal strings parse, but decorated
strings raise.  Only the dashboard view strips `%`, `$` and `,` before
parsing, and there an unparsable value keeps the original string (the
`except: pass` path) instead of coercing to 0.0. -/
theorem numeric_parsing_as_implemented :
    (∀ q : ℚ, pyFloat (.num q) = .ok q)
    ∧ pyFloat (.str "1234.56") = .ok (123456 / 100)
    ∧ pyFloat (.str "$1,234.56") = .error ()
    ∧ viewParseTvl "$1,234.56" = some (123456 / 100)
    ∧ viewParseApy "37.50%" = some (75 / 2)
    ∧ viewParseApy "abc" = none := by
  refine ⟨fun q => rfl, by decide, by decide, by decide, by decide, by decide⟩

-- C6 ------------------------------------------------------------------------

/-- C6 counterexample: an attempt failure outside the `aiohttp.ClientError`
class (such as the `asyncio.TimeoutError` raised when the 15-second timeout
expires) is not caught: the exception escapes `async_request` on the very
first attempt, so the connector neither retries nor returns the no-data
marker, and `fetch_yields` propagates the exception instead of yielding an
empty collection. -/
theorem connector_raises_on_fatal :
    (asyncRequest allFatal).result = .error ()
    ∧ (asyncRequest allFatal).attempts = 1
    ∧ fetchYields (asyncRequest allFatal).result = .error () := by
  exact ⟨rfl, rfl, rfl⟩

/-- C6 amended: the connector performs at most 3 attempts; failures of class
`aiohttp.ClientError` are retried with doubling backoff delays (1s then 2s),
and after exhausting the 3 attempts the connector returns the explicit
`{"error"}` marker, which the fetch stage turns into an empty collection;
failures outside that class, however, raise past the caller at once. -/
theorem connector_retry_policy (outs : Nat → AttemptOutcome (List RawPool))
    (h : ∀ a, outs a = .clientErr) :
    (asyncRequest outs).result = .ok .errMarker
    ∧ (asyncRequest outs).attempts = 3
    ∧ (asyncRequest outs).delays = [1, 2]
    ∧ fetchYields (asyncRequest outs).result = .ok []
    ∧ (∀ outs2 : Nat → AttemptOutcome (List RawPair), (asyncRequest outs2).attempts ≤ 3) := by
  refine ⟨?_, ?_, ?_, ?_, fun outs2 => asyncReqAux_attempts_le outs2 3 0⟩ <;>
    simp [asyncRequest, asyncReqAux, h, fetchYields]

/-- Witness for the amended C6 theorem at the all-client-errors outcome. -/
theorem connector_retry_policy_witness :
    (∀ a : Nat, allClientErr a = .clientErr)
    ∧ ((asyncRequest allClientErr).result = .ok .errMarker
      ∧ (asyncRequest allClientErr).attempts = 3
      ∧ (asyncRequest allClientErr).delays = [1, 2]
      ∧ fetchYields (asyncRequest allClientErr).result = .ok []
      ∧ (∀ outs2 : Nat → AttemptOutcome (List RawPair), (asyncRequest outs2).attempts ≤ 3)) :=
  ⟨fun _ => rfl, connector_retry_policy allClientErr (fun _ => rfl)⟩

-- C8 ------------------------------------------------------------------------

unseal Rat.add Rat.mul Rat.inv Rat.sub Rat.ofScientific in
/-- C8: the yield risk scorer is exactly the pure function the spec
describes (base 1.0, +1 for apy > 20, +1 for tvl < 1,000,000, per-chain
weight defaulting to 1.0, +0.5 outside the focus list), return-on-risk is
apy divided by the score and the class thresholds are 2 and 1; on the worked
example (apy 25, tvl 500,000, focus project, chain weight 1.0) the score is
4.0, the return-on-risk 6.25 and the class Low. -/
theorem risk_scorer_formula :
    (∀ (apy tvl : ℚ) (project chain : String),
      riskScore apy tvl project chain = riskScoreSpec apy tvl project chain)
    ∧ riskScore 25 500000 "aave" "bsc" = 4
    ∧ (normPool p8).ror = 25 / 4
    ∧ (normPool p8).risk = "Low"
    ∧ (∀ p : RawPool,
        (normPool p).ror
          = (p.apy.getD 0) / riskScore (p.apy.getD 0) (p.tvlUsd.getD 0)
              (p.project.getD "") (p.chain.getD ""))
    ∧ (∀ p : RawPool,
        (normPool p).risk
          = if (normPool p).ror > 2 then "Low"
            else if (normPool p).ror > 1 then "Medium" else "High") := by
  refine ⟨?_, by decide, by decide, by decide, fun p => rfl, fun p => rfl⟩
  intro apy tvl project chain
  simp only [riskScore, riskScoreSpec, chainRiskWeight]
  split_ifs <;> ring

-- C10 -----------------------------------------------------------------------

unseal Rat.add Rat.mul Rat.inv Rat.sub Rat.ofScientific in
/-- C10 counterexample: a pool record that carries no chain, no symbol and no
pool/contract identifier, but passes the apy/tvl/project thresholds, is not
dropped: the fetch stage returns it with the placeholder identity fields
`"unknown"` / `"?"` / `"unknown"`. -/
theorem placeholder_identity_kept :
    fetchYields (.ok (.data [pBad])) = .ok [normPool pBad]
    ∧ (normPool pBad).contract_address = "unknown"
    ∧ (normPool pBad).symbol = "?"
    ∧ (normPool pBad).chain = "unknown" := by
  refine ⟨by decide, by decide, by decide, by decide⟩

/-- C10 amended: the yield normalizer drops records only through the
apy/tvl/project threshold filter; missing identity fields are filled with
placeholder defaults and the record is kept (a missing pool id becomes
contract address `"unknown"`).  Only a meme pair missing its chain id is
dropped, because the `"unknown"` default is not an allowed meme chain. -/
theorem identity_placeholder_policy (p : RawPool) (pr : RawPair) (n : Nat)
    (h1 : keepPool p = true) (h2 : p.pool = none) (h3 : pr.chainId = none) :
    fetchYields (.ok (.data [p])) = .ok [normPool p]
    ∧ (normPool p).contract_address = "unknown"
    ∧ normMemePair n pr = .ok none
    ∧ (∀ pools : List RawPool,
        fetchYields (.ok (.data pools)) = .ok ((pools.filter keepPool).map normPool)) := by
  refine ⟨?_, ?_, ?_, fun pools => rfl⟩
  · simp [fetchYields, h1]
  · simp [normPool, h2]
  · simp only [normMemePair, h3, Option.getD_none]
    rw [if_neg (by decide : ¬(toLowerStr "unknown" ∈ MEME_CHAINS))]

/-- Witness for the amended C10 theorem: `pBad` passes the filters with no
pool id, and the all-defaults raw pair has no chain id. -/
theorem identity_placeholder_policy_witness :
    (keepPool pBad = true ∧ pBad.pool = none ∧ ({} : RawPair).chainId = none)
    ∧ (fetchYields (.ok (.data [pBad])) = .ok [normPool pBad]
      ∧ (normPool pBad).contract_address = "unknown"
      ∧ normMemePair 0 ({} : RawPair) = .ok none
      ∧ (∀ pools : List RawPool,
          fetchYields (.ok (.data pools)) = .ok ((pools.filter keepPool).map normPool))) := by
  have h1 : keepPool pBad = true := by decide
  exact ⟨⟨h1, rfl, rfl⟩, identity_placeholder_policy pBad {} 0 h1 rfl rfl⟩

-- C2 ------------------------------------------------------------------------

unseal Rat.add Rat.mul Rat.inv Rat.sub Rat.ofScientific in
/-- C2 counterexample: one meme record whose liquidity field is a decorated
string makes `float()` raise; nothing in `fetch_meme_coins` or `main_loop`
catches it, so the iteration never reaches the sleep stage — a single
record's failure aborts the whole cycle and terminates the loop. -/
theorem scan_cycle_crashes :
    mainLoopBody (.ok .errMarker) [.ok (.data [badPair])] true emptyOppDB emptyMemeDB 0
      = .error ()
    ∧ fetchMemeCoins [.ok (.data [badPair])] = .error () := by
  refine ⟨by decide, by decide⟩

/-- C2 amended: the loop body reaches the sleep stage whenever both fetch
stages return (rather than raise) — in particular when every provider request
degrades to the `{"error"}` marker, in which case the stores are left
untouched; but the body has no exception handler of its own, so any exception
escaping a stage (a non-`ClientError` request failure, a `float()`
`ValueError` during normalization, or a snapshot-write failure) terminates
the loop. -/
theorem scan_cycle_reaches_sleep (yr : Except Unit (Resp (List RawPool)))
    (mrs : List (Except Unit (Resp (List RawPair))))
    (db : OppDB) (mdb : MemeDB) (now : Nat)
    (h1 : ∃ ys, fetchYields yr = .ok ys)
    (h2 : ∃ ms, fetchMemeCoins mrs = .ok ms) :
    (∃ r, mainLoopBody yr mrs true db mdb now = .ok r)
    ∧ mainLoopBody (.ok .errMarker) (List.replicate 7 (.ok .errMarker)) true db mdb now
        = .ok (db, mdb) := by
  constructor
  · obtain ⟨ys, hys⟩ := h1
    obtain ⟨ms, hms⟩ := h2
    simp only [mainLoopBody, hys, hms]
    exact ⟨_, rfl⟩
  · rfl

/-- Witness for the amended C2 theorem at all-failed providers. -/
theorem scan_cycle_reaches_sleep_witness :
    ((∃ ys, fetchYields (.ok .errMarker) = .ok ys)
      ∧ (∃ ms, fetchMemeCoins ([] : List (Except Unit (Resp (List RawPair)))) = .ok ms))
    ∧ ((∃ r, mainLoopBody (.ok .errMarker) [] true emptyOppDB emptyMemeDB 0 = .ok r)
      ∧ mainLoopBody (.ok .errMarker) (List.replicate 7 (.ok .errMarker)) true
          emptyOppDB emptyMemeDB 0 = .ok (emptyOppDB, emptyMemeDB)) :=
  ⟨⟨⟨[], rfl⟩, ⟨[], rfl⟩⟩,
    scan_cycle_reaches_sleep (.ok .errMarker) [] emptyOppDB emptyMemeDB 0
      ⟨[], rfl⟩ ⟨[], rfl⟩⟩

-- C4 counterexample ---------------------------------------------------------

unseal Rat.add Rat.mul Rat.inv Rat.sub Rat.ofScientific in
/-- C4 counterexample: the same qualifying pair returned by two keyword
queries produces two identical entries in the scanned batch — nothing
deduplicates by (chain, contract_address), so the key yields two persisted
upsert attempts per cycle, not one. -/
theorem duplicate_pair_not_collapsed :
    fetchMemeCoins c4rs = .ok [mDup, mDup]
    ∧ memeKey mDup = ("0xmeme", "ethereum") := by
  refine ⟨by decide, by decide⟩

-- C1 counterexample ---------------------------------------------------------

set_option maxRecDepth 10000 in
unseal Rat.add Rat.mul Rat.inv Rat.sub Rat.ofScientific in
/-- C1 counterexample: after upserting 51 distinct keys on one chain and then
re-upserting an already-stored key, the store holds two rows with that
(contract_address, chain) key — the duplicate check consults only the 50
highest-tvl rows of the chain, so the re-upsert inserted instead of
updating. -/
theorem upsert_key_duplicated :
    ((saveResultsToDb emptyOppDB c1entries 0).rows.filter
      (fun r => rowKey r == ("c50", "ethereum"))).length = 2 := by
  decide

-- C9 ------------------------------------------------------------------------

unseal Rat.add Rat.mul Rat.inv Rat.sub Rat.ofScientific in
/-- C9: every meme entry the scanner builds is classed High exactly when the
absolute 24h change exceeds 20 and Medium otherwise (Low never occurs), and
its growth potential is the 24h change formatted to two decimals with a
percent sign; in particular a +35 change gives High and "35.00%". -/
theorem meme_risk_class (n : Nat) (p : RawPair) (m : MemeEntry) (c : ℚ)
    (h : normMemePair n p = .ok (some m))
    (hc : pyFloatOpt p.priceChangeH24 = .ok c) :
    ((m.risk = "High" ↔ |c| > 20)
      ∧ (m.risk = "Medium" ↔ ¬|c| > 20)
      ∧ m.growth_potential = fmt2 c ++ "%"
      ∧ m.change_24h_pct = fmt2 c ++ "%")
    ∧ (normMemePair 0 p35 = .ok (some m35)
      ∧ m35.risk = "High" ∧ m35.growth_potential = "35.00%") := by
  refine ⟨?_, by decide, by decide, by decide⟩
  simp only [normMemePair, hc] at h
  split at h
  next =>
    cases hl : pyFloatOpt p.liquidityUsd with
    | error u => simp [hl] at h
    | ok lq =>
      cases hv : pyFloatOpt p.volumeH24 with
      | error u => simp [hl, hv] at h
      | ok vol =>
        simp only [hl, hv] at h
        split at h
        next => simp at h
        next =>
          cases hp : pyFloatOpt p.priceUsd with
          | error u => simp [hp] at h
          | ok price =>
            cases hf : pyFloatOpt p.fdv with
            | error u => simp [hp, hf] at h
            | ok mcap =>
              simp only [hp, hf, Except.ok.injEq, Option.some.injEq] at h
              subst h
              by_cases hgt : |c| > 20
              · refine ⟨by simp [mkMemeEntry, hgt], ?_, rfl, rfl⟩
                constructor
                · intro hMed
                  have h5 : ("High" : String) = "Medium" := by
                    simpa [mkMemeEntry, hgt] using hMed
                  exact absurd h5 (by decide)
                · intro hn; exact absurd hgt hn
              · refine ⟨?_, by simp [mkMemeEntry, hgt], rfl, rfl⟩
                constructor
                · intro hHigh
                  have h5 : ("Medium" : String) = "High" := by
                    simpa [mkMemeEntry, hgt] using hHigh
                  exact absurd h5 (by decide)
                · intro hyes; exact absurd hyes hgt
  next => simp at h

unseal Rat.add Rat.mul Rat.inv Rat.sub Rat.ofScientific in
/-- Witness for C9 at the +35%-change pair. -/
theorem meme_risk_class_witness :
    (normMemePair 0 p35 = .ok (some m35) ∧ pyFloatOpt p35.priceChangeH24 = .ok 35)
    ∧ (((m35.risk = "High" ↔ |(35 : ℚ)| > 20)
        ∧ (m35.risk = "Medium" ↔ ¬|(35 : ℚ)| > 20)
        ∧ m35.growth_potential = fmt2 35 ++ "%"
        ∧ m35.change_24h_pct = fmt2 35 ++ "%")
      ∧ (normMemePair 0 p35 = .ok (some m35)
        ∧ m35.risk = "High" ∧ m35.growth_potential = "35.00%")) :=
  ⟨⟨by decide, by decide⟩, meme_risk_class 0 p35 m35 35 (by decide) (by decide)⟩

-- C7 ------------------------------------------------------------------------

/-- C7: starting from an empty store, upserting a key and then re-upserting
the same (contract_address, chain) key at a later time leaves exactly one
row: the second upsert merges into the existing row (same id, no insert), the
stored apy reflects the second value, and `last_updated` is strictly greater
than after the first upsert. -/
theorem upsert_merge_refresh (e1 e2 : YieldEntry) (t1 t2 : Nat)
    (hca : e2.contract_address = e1.contract_address)
    (hch : e2.chain = e1.chain)
    (hapy : e2.apy ≠ e1.apy)
    (ht : t1 < t2) :
    ∃ r1 r2 : OppRow,
      (upsertYield emptyOppDB e1 t1).rows = [r1]
      ∧ (upsertYield (upsertYield emptyOppDB e1 t1) e2 t2).rows = [r2]
      ∧ r2.apy = e2.apy ∧ r2.id = r1.id ∧ r1.apy = e1.apy
      ∧ r1.last_updated = t1 ∧ r2.last_updated = t2
      ∧ r1.last_updated < r2.last_updated := by
  have h1 : upsertYield emptyOppDB e1 t1
      = ⟨[{ id := 0, project := e1.project, symbol := e1.symbol, chain := e1.chain,
            apy := e1.apy, tvl := e1.tvl, risk := e1.risk, type := e1.type,
            contract_address := e1.contract_address, last_updated := t1,
            is_active := true }], 1⟩ := rfl
  refine ⟨{ id := 0, project := e1.project, symbol := e1.symbol, chain := e1.chain,
            apy := e1.apy, tvl := e1.tvl, risk := e1.risk, type := e1.type,
            contract_address := e1.contract_address, last_updated := t1,
            is_active := true },
          { id := 0, project := e2.project, symbol := e2.symbol, chain := e2.chain,
            apy := e2.apy, tvl := e2.tvl, risk := e2.risk, type := e2.type,
            contract_address := e2.contract_address, last_updated := t2,
            is_active := true },
          by rw [h1], ?_, rfl, rfl, rfl, rfl, rfl, ht⟩
  rw [h1]
  simp only [upsertYield, getOpportunities, sortByTvl, saveOpportunities,
    mergeOpp, mkOppRow, List.foldl, List.foldr, insertByTvl, List.filter,
    hca, hch, beq_self_eq_true, List.take, List.head?, Option.map, List.any]
  simp

-- C1 amended: lemma suite -----------------------------------------------------

/-- Membership is preserved by one sorted insertion. -/
theorem mem_insertByTvl {r x : OppRow} :
    ∀ {l : List OppRow}, x ∈ insertByTvl r l ↔ x = r ∨ x ∈ l := by
  intro l
  induction l with
  | nil => simp [insertByTvl]
  | cons a as ih =>
      rw [insertByTvl]
      split
      · simp
      · simp only [List.mem_cons, ih]
        tauto

/-- Membership is preserved by the tvl sort. -/
theorem mem_sortByTvl {x : OppRow} :
    ∀ {l : List OppRow}, x ∈ sortByTvl l ↔ x ∈ l := by
  intro l
  induction l with
  | nil => simp [sortByTvl]
  | cons a as ih =>
      rw [show sortByTvl (a :: as) = insertByTvl a (sortByTvl as) from rfl,
        mem_insertByTvl]
      simp [ih]

/-- One sorted insertion grows the length by one. -/
theorem length_insertByTvl (r : OppRow) :
    ∀ (l : List OppRow), (insertByTvl r l).length = l.length + 1 := by
  intro l
  induction l with
  | nil => rfl
  | cons a as ih =>
      rw [insertByTvl]
      split
      · rfl
      · simp [ih]

/-- The tvl sort preserves length. -/
theorem length_sortByTvl :
    ∀ (l : List OppRow), (sortByTvl l).length = l.length := by
  intro l
  induction l with
  | nil => rfl
  | cons a as ih =>
      rw [show sortByTvl (a :: as) = insertByTvl a (sortByTvl as) from rfl,
        length_insertByTvl]
      simp [ih]

/-- When every row is active and the chain holds at most 50 rows, the
limit-50 chain query returns exactly the chain's rows (as a set). -/
theorem mem_getOpportunities (db : OppDB) (c : String)
    (hact : ∀ r ∈ db.rows, r.is_active = true)
    (hcnt : (db.rows.filter (fun r => r.chain == c)).length ≤ 50) :
    ∀ x, x ∈ getOpportunities db (some c) ↔ x ∈ db.rows ∧ x.chain = c := by
  intro x
  unfold getOpportunities
  have hfa : db.rows.filter (fun r => r.is_active) = db.rows :=
    List.filter_eq_self.mpr (fun a ha => hact a ha)
  rw [hfa]
  have hlen : (sortByTvl (db.rows.filter (fun r => r.chain == c))).length ≤ 50 := by
    rw [length_sortByTvl]
    exact hcnt
  rw [List.take_of_length_le hlen, mem_sortByTvl, List.mem_filter]
  simp

/-- The duplicate check comes back empty exactly when the key is absent
(under the activity and chain-size hypotheses). -/
theorem existing_empty_iff (db : OppDB) (e : YieldEntry)
    (hact : ∀ r ∈ db.rows, r.is_active = true)
    (hcnt : (db.rows.filter (fun r => r.chain == e.chain)).length ≤ 50) :
    ((getOpportunities db (some e.chain)).filter
        (fun o => o.contract_address == e.contract_address) = [])
      ↔ ∀ r ∈ db.rows, rowKey r ≠ yieldKey e := by
  rw [List.filter_eq_nil_iff]
  constructor
  · intro h r hr hkey
    have h1 : r.contract_address = e.contract_address := congrArg Prod.fst hkey
    have h2 : r.chain = e.chain := congrArg Prod.snd hkey
    have hmem : r ∈ getOpportunities db (some e.chain) :=
      (mem_getOpportunities db e.chain hact hcnt r).mpr ⟨hr, h2⟩
    exact h r hmem (by simp [h1])
  · intro h o ho hbeq
    have hmem := (mem_getOpportunities db e.chain hact hcnt o).mp ho
    have hca : o.contract_address = e.contract_address := by
      simpa using hbeq
    exact h o hmem.1 (Prod.ext hca hmem.2)

/-- The head of a nonempty duplicate check is a stored row with the upserted
key. -/
theorem existing_head_key (db : OppDB) (e : YieldEntry)
    (hact : ∀ r ∈ db.rows, r.is_active = true)
    (hcnt : (db.rows.filter (fun r => r.chain == e.chain)).length ≤ 50)
    (o : OppRow) (rest : List OppRow)
    (h : (getOpportunities db (some e.chain)).filter
        (fun o2 => o2.contract_address == e.contract_address) = o :: rest) :
    o ∈ db.rows ∧ rowKey o = yieldKey e := by
  have ho : o ∈ (getOpportunities db (some e.chain)).filter
      (fun o2 => o2.contract_address == e.contract_address) := by
    rw [h]; exact List.mem_cons_self o rest
  have ⟨hmem, hca⟩ := List.mem_filter.mp ho
  have hrc := (mem_getOpportunities db e.chain hact hcnt o).mp hmem
  refine ⟨hrc.1, Prod.ext ?_ hrc.2⟩
  simpa using hca

/-- A duplicate-free list that injects into another has at most as many
elements as the other has distinct ones. -/
theorem nodup_subset_dedup_length {α : Type} [DecidableEq α] {l1 l2 : List α}
    (hn : l1.Nodup) (h : l1 ⊆ l2) : l1.length ≤ l2.dedup.length := by
  calc l1.length = l1.toFinset.card := (List.toFinset_card_of_nodup hn).symm
    _ ≤ l2.toFinset.card :=
        Finset.card_le_card
          (fun x hx => List.mem_toFinset.mpr (h (List.mem_toFinset.mp hx)))
    _ = l2.dedup.length := List.card_toFinset l2

/-- Under the invariant, a chain holds at most as many rows as distinct keys
of that chain were ever upserted. -/
theorem chain_rows_le (ps : List (String × String)) (db : OppDB)
    (inv : OppInv ps db) (c : String) :
    (db.rows.filter (fun r => r.chain == c)).length
      ≤ ((ps.filter (fun kk => kk.2 == c)).dedup).length := by
  have hsub : (db.rows.filter (fun r => r.chain == c)).map rowKey
      ⊆ ps.filter (fun kk => kk.2 == c) := by
    intro kk hkk
    obtain ⟨r, hrF, hrk⟩ := List.mem_map.mp hkk
    have hrc := List.mem_filter.mp hrF
    apply List.mem_filter.mpr
    subst hrk
    exact ⟨inv.keysSub r hrc.1, hrc.2⟩
  have hnd : ((db.rows.filter (fun r => r.chain == c)).map rowKey).Nodup :=
    List.Nodup.sublist (List.Sublist.map rowKey (List.filter_sublist db.rows))
      inv.keysNodup
  have hle := nodup_subset_dedup_length hnd hsub
  simpa using hle

/-- One upsert preserves the invariant, provided the entry's chain currently
holds at most 50 rows (so the limit-50 duplicate check is complete). -/
theorem upsert_inv (ps : List (String × String)) (db : OppDB) (e : YieldEntry)
    (now : Nat) (inv : OppInv ps db)
    (hcnt : (db.rows.filter (fun r => r.chain == e.chain)).length ≤ 50) :
    OppInv (ps ++ [yieldKey e]) (upsertYield db e now) := by
  rcases hEx : (getOpportunities db (some e.chain)).filter
      (fun o => o.contract_address == e.contract_address) with _ | ⟨o, rest⟩
  · have hnot := (existing_empty_iff db e inv.allActive hcnt).mp hEx
    have hU : upsertYield db e now
        = ⟨db.rows ++ [updRow e db.nextId now], db.nextId + 1⟩ := by
      unfold upsertYield saveOpportunities
      rw [hEx]
      rfl
    rw [hU]
    refine ⟨?_, ?_, ?_, ?_, ?_⟩
    · rw [List.map_append, List.nodup_append]
      refine ⟨inv.keysNodup, List.nodup_singleton _, ?_⟩
      intro a ha hb
      obtain ⟨r, hr, hrk⟩ := List.mem_map.mp ha
      have hb2 : a = yieldKey e := by simpa [updRow, rowKey] using hb
      exact hnot r hr (by rw [hrk, hb2])
    · rw [List.map_append, List.nodup_append]
      refine ⟨inv.idsNodup, List.nodup_singleton _, ?_⟩
      intro a ha hb
      obtain ⟨r, hr, hrk⟩ := List.mem_map.mp ha
      have hb2 : a = db.nextId := by simpa [updRow] using hb
      have := inv.idsLt r hr
      omega
    · intro r hr
      rcases List.mem_append.mp hr with hl | hrt
      · have h2 := inv.idsLt r hl
        show r.id < db.nextId + 1
        omega
      · have : r = updRow e db.nextId now := by simpa using hrt
        rw [this]
        exact Nat.lt_succ_self _
    · intro r hr
      rcases List.mem_append.mp hr with hl | hrt
      · exact inv.allActive r hl
      · have : r = updRow e db.nextId now := by simpa using hrt
        rw [this]
        rfl
    · intro r hr
      rcases List.mem_append.mp hr with hl | hrt
      · exact List.mem_append_left _ (inv.keysSub r hl)
      · have : r = updRow e db.nextId now := by simpa using hrt
        rw [this]
        exact List.mem_append_right _ (by simp [updRow, rowKey, yieldKey])
  · obtain ⟨hoRows, hoKey⟩ := existing_head_key db e inv.allActive hcnt o rest hEx
    have hAny : db.rows.any (fun r => r.id == o.id) = true :=
      List.any_eq_true.mpr ⟨o, hoRows, by simp⟩
    have hU : upsertYield db e now
        = ⟨db.rows.map (fun r => if r.id = o.id then updRow e o.id now else r),
            db.nextId⟩ := by
      unfold upsertYield saveOpportunities mergeOpp
      rw [hEx]
      simp [hAny, updRow]
      rw [if_pos ⟨o, hoRows, rfl⟩]
      rfl
    rw [hU]
    have hpt : ∀ r ∈ db.rows,
        rowKey (if r.id = o.id then updRow e o.id now else r) = rowKey r
        ∧ (if r.id = o.id then updRow e o.id now else r).id = r.id
        ∧ (if r.id = o.id then updRow e o.id now else r).is_active = true := by
      intro r hr
      by_cases hid : r.id = o.id
      · have hro : r = o := List.inj_on_of_nodup_map inv.idsNodup hr hoRows hid
        subst hro
        refine ⟨?_, by simp [hid, updRow], by simp [hid, updRow]⟩
        rw [if_pos hid, hoKey]
        rfl
      · simp [hid, inv.allActive r hr]
    have hmk : (db.rows.map (fun r => if r.id = o.id then updRow e o.id now else r)).map rowKey
        = db.rows.map rowKey := by
      rw [List.map_map]
      exact List.map_congr_left (fun r hr => (hpt r hr).1)
    have hmi : (db.rows.map (fun r => if r.id = o.id then updRow e o.id now else r)).map OppRow.id
        = db.rows.map OppRow.id := by
      rw [List.map_map]
      exact List.map_congr_left (fun r hr => (hpt r hr).2.1)
    refine ⟨?_, ?_, ?_, ?_, ?_⟩
    · rw [hmk]; exact inv.keysNodup
    · rw [hmi]; exact inv.idsNodup
    · intro r2 hr2
      obtain ⟨r, hr, hrr⟩ := List.mem_map.mp hr2
      have h1 : r2.id = r.id := by rw [← hrr]; exact (hpt r hr).2.1
      rw [h1]
      exact inv.idsLt r hr
    · intro r2 hr2
      obtain ⟨r, hr, hrr⟩ := List.mem_map.mp hr2
      rw [← hrr]
      exact (hpt r hr).2.2
    · intro r2 hr2
      obtain ⟨r, hr, hrr⟩ := List.mem_map.mp hr2
      have h1 : rowKey r2 = rowKey r := by rw [← hrr]; exact (hpt r hr).1
      rw [h1]
      exact List.mem_append_left _ (inv.keysSub r hr)

/-- `dedup` length is monotone under list inclusion. -/
theorem dedup_length_mono {α : Type} [DecidableEq α] {l1 l2 : List α}
    (h : l1 ⊆ l2) : l1.dedup.length ≤ l2.dedup.length :=
  nodup_subset_dedup_length (List.nodup_dedup l1)
    (fun x hx => h (List.mem_dedup.mp hx))

/-- Filtering distributes over inclusion into an extension. -/
theorem filter_subset_append {α : Type} (p : α → Bool) (l1 l2 : List α) :
    l1.filter p ⊆ (l1 ++ l2).filter p := by
  intro x hx
  have hc := List.mem_filter.mp hx
  exact List.mem_filter.mpr ⟨List.mem_append_left _ hc.1, hc.2⟩

/-- Running a whole batch of upserts preserves the invariant when every
chain stays within 50 distinct upserted keys. -/
theorem saveResults_inv (now : Nat) :
    ∀ (es : List YieldEntry) (db : OppDB) (ps : List (String × String)),
      OppInv ps db →
      (∀ c, (((ps ++ es.map yieldKey).filter (fun kk => kk.2 == c)).dedup).length ≤ 50) →
      OppInv (ps ++ es.map yieldKey) (saveResultsToDb db es now) := by
  intro es
  induction es with
  | nil =>
      intro db ps inv hb
      simpa using inv
  | cons e es ih =>
      intro db ps inv hb
      have hcnt : (db.rows.filter (fun r => r.chain == e.chain)).length ≤ 50 := by
        have h1 := chain_rows_le ps db inv e.chain
        have h2 : (ps.filter (fun kk => kk.2 == e.chain)).dedup.length
            ≤ (((ps ++ (e :: es).map yieldKey).filter
                (fun kk => kk.2 == e.chain)).dedup).length :=
          dedup_length_mono (filter_subset_append _ ps ((e :: es).map yieldKey))
        exact le_trans h1 (le_trans h2 (hb e.chain))
      have inv2 := upsert_inv ps db e now inv hcnt
      have hkeys : (ps ++ [yieldKey e]) ++ es.map yieldKey
          = ps ++ (e :: es).map yieldKey := by
        rw [List.map_cons, List.append_assoc, List.singleton_append]
      have hb2 : ∀ c, ((((ps ++ [yieldKey e]) ++ es.map yieldKey).filter
          (fun kk => kk.2 == c)).dedup).length ≤ 50 := by
        intro c
        rw [hkeys]
        exact hb c
      have ih2 := ih (upsertYield db e now) (ps ++ [yieldKey e]) inv2 hb2
      rw [hkeys] at ih2
      exact ih2

/-- Among rows with duplicate-free keys, at most one row matches any key. -/
theorem nodup_filter_key_le_one {l : List OppRow}
    (h : (l.map rowKey).Nodup) (kk : String × String) :
    (l.filter (fun r => rowKey r == kk)).length ≤ 1 := by
  induction l with
  | nil => simp
  | cons a as ih =>
      rw [List.map_cons, List.nodup_cons] at h
      rw [List.filter_cons]
      by_cases hk : rowKey a = kk
      · rw [if_pos (by simp [hk])]
        have hrest : as.filter (fun r => rowKey r == kk) = [] := by
          apply List.filter_eq_nil_iff.mpr
          intro r hr hbeq
          have hsame : rowKey r = kk := by simpa using hbeq
          exact h.1 (List.mem_map.mpr ⟨r, hr, by rw [hsame, hk]⟩)
        simp [hrest]
      · rw [if_neg (by simp [hk])]
        exact ih h.2

/-- C1 amended: starting from an empty store, any sequence of upserts in
which each chain sees at most 50 distinct (contract_address, chain) keys
leaves at most one stored row per key — the bound is forced by the
duplicate check consulting only the 50 highest-tvl rows of the chain. -/
theorem upsert_key_unique (es : List YieldEntry) (now : Nat)
    (h : ∀ c : String,
      (((es.map yieldKey).filter (fun kk => kk.2 == c)).dedup).length ≤ 50) :
    ∀ kk : String × String,
      ((saveResultsToDb emptyOppDB es now).rows.filter
        (fun r => rowKey r == kk)).length ≤ 1 := by
  have inv0 : OppInv [] emptyOppDB :=
    ⟨by simp [emptyOppDB], by simp [emptyOppDB], by simp [emptyOppDB],
     by simp [emptyOppDB], by simp [emptyOppDB]⟩
  have hinv := saveResults_inv now es emptyOppDB [] inv0 (by simpa using h)
  intro kk
  exact nodup_filter_key_le_one hinv.keysNodup kk

/-- Witness for the amended C1 theorem at the empty upsert sequence. -/
theorem upsert_key_unique_witness :
    (∀ c : String,
      (((([] : List YieldEntry).map yieldKey).filter
        (fun kk => kk.2 == c)).dedup).length ≤ 50)
    ∧ ((saveResultsToDb emptyOppDB [] 0).rows.filter
        (fun r => rowKey r == ("a", "b"))).length ≤ 1 :=
  ⟨fun c => by simp, upsert_key_unique [] 0 (fun c => by simp) ("a", "b")⟩

-- C4 amended: lemma suite ---------------------------------------------------

/-- A processed pair either raises, is skipped, or yields exactly one entry
carrying the pair's key; whether it is kept does not depend on the entry
counter (which only feeds the `pool_id` fallback). -/
theorem normMemePair_shape (n : Nat) (p : RawPair) :
    (normMemePair n p = .error () ∧ keptPair p = false)
    ∨ (normMemePair n p = .ok none ∧ keptPair p = false)
    ∨ (∃ m, normMemePair n p = .ok (some m) ∧ keptPair p = true
        ∧ memeKey m = pairKey p) := by
  by_cases hC : toLowerStr (p.chainId.getD "unknown") ∈ MEME_CHAINS
  · cases hl : pyFloatOpt p.liquidityUsd with
    | error u =>
        exact Or.inl ⟨by simp [normMemePair, hC, hl],
          by simp [keptPair, normMemePair, hC, hl]⟩
    | ok lq =>
      cases hv : pyFloatOpt p.volumeH24 with
      | error u =>
          exact Or.inl ⟨by simp [normMemePair, hC, hl, hv],
            by simp [keptPair, normMemePair, hC, hl, hv]⟩
      | ok vol =>
        cases hc2 : pyFloatOpt p.priceChangeH24 with
        | error u =>
            exact Or.inl ⟨by simp [normMemePair, hC, hl, hv, hc2],
              by simp [keptPair, normMemePair, hC, hl, hv, hc2]⟩
        | ok chg =>
          by_cases hth : lq < 10000 ∨ vol < 10000
          · exact Or.inr (Or.inl ⟨by simp [normMemePair, hC, hl, hv, hc2, hth],
              by simp [keptPair, normMemePair, hC, hl, hv, hc2, hth]⟩)
          · cases hp : pyFloatOpt p.priceUsd with
            | error u =>
                exact Or.inl ⟨by simp [normMemePair, hC, hl, hv, hc2, hth, hp],
                  by simp [keptPair, normMemePair, hC, hl, hv, hc2, hth, hp]⟩
            | ok price =>
              cases hf : pyFloatOpt p.fdv with
              | error u =>
                  exact Or.inl
                    ⟨by simp [normMemePair, hC, hl, hv, hc2, hth, hp, hf],
                     by simp [keptPair, normMemePair, hC, hl, hv, hc2, hth, hp, hf]⟩
              | ok mcap =>
                  refine Or.inr (Or.inr
                    ⟨mkMemeEntry n p lq vol chg price mcap, ?_, ?_, ?_⟩)
                  · simp [normMemePair, hC, hl, hv, hc2, hth, hp, hf]
                  · simp [keptPair, normMemePair, hC, hl, hv, hc2, hth, hp, hf]
                  · rfl
  · exact Or.inr (Or.inl ⟨by simp [normMemePair, hC],
      by simp [keptPair, normMemePair, hC]⟩)

/-- Count bookkeeping for the inner pair loop: on success, each kept pair
with key `k` contributes exactly one entry with key `k`. -/
theorem processPairs_count (k : String × String) :
    ∀ (ps : List RawPair) (acc b : List MemeEntry),
      processPairs ps acc = .ok b →
      (b.filter (fun m => memeKey m == k)).length
        = (acc.filter (fun m => memeKey m == k)).length
          + (ps.filter (fun p => keptPair p && (pairKey p == k))).length := by
  intro ps
  induction ps with
  | nil =>
      intro acc b h
      simp only [processPairs] at h
      cases h
      simp
  | cons p ps ih =>
      intro acc b h
      rcases normMemePair_shape acc.length p with ⟨he, hk⟩ | ⟨hn, hk⟩ | ⟨m, hm, hk, hkey⟩
      · rw [processPairs, he] at h
        cases h
      · rw [processPairs, hn] at h
        rw [ih acc b h, List.filter_cons]
        simp [hk]
      · rw [processPairs, hm] at h
        rw [ih (acc ++ [m]) b h, List.filter_append, List.length_append,
          List.filter_cons]
        by_cases hkk : pairKey p = k
        · have hmk : memeKey m = k := by rw [hkey, hkk]
          simp [hk, hkk, hmk]
          omega
        · have hmk : ¬memeKey m = k := by rw [hkey]; exact hkk
          simp [hk, hkk, hmk]
  termination_by ps => ps.length

/-- Count bookkeeping for the outer results loop. -/
theorem processResults_count (k : String × String) :
    ∀ (rs : List (Resp (List RawPair))) (acc b : List MemeEntry),
      processResults rs acc = .ok b →
      (b.filter (fun m => memeKey m == k)).length
        = (acc.filter (fun m => memeKey m == k)).length + qualCount k rs := by
  intro rs
  induction rs with
  | nil =>
      intro acc b h
      simp only [processResults] at h
      cases h
      simp [qualCount]
  | cons r rs ih =>
      intro acc b h
      cases r with
      | errMarker =>
          simp only [processResults] at h
          rw [ih acc b h, qualCount]
      | data ps =>
          simp only [processResults] at h
          cases hpp : processPairs ps acc with
          | error u => rw [hpp] at h; cases h
          | ok acc2 =>
              rw [hpp] at h
              have h2 := processPairs_count k ps acc acc2 hpp
              have h3 := ih acc2 b h
              rw [h3, h2, qualCount]
              omega

/-- `asyncio.gather` over requests that all returned. -/
theorem gatherE_map_ok {α : Type} (rs : List α) :
    gatherE (rs.map Except.ok) = (.ok rs : Except Unit (List α)) := by
  induction rs with
  | nil => rfl
  | cons r rs ih => simp [gatherE, ih]

/-- C4 amended: no deduplication happens — on a successful scan, the number
of batch entries carrying a given (chain, contract_address) key equals the
number of qualifying raw pairs carrying that key across all keyword results,
so duplicate keyword hits produce one upsert attempt each rather than
collapsing to one. -/
theorem no_dedup_key_count (rs : List (Resp (List RawPair)))
    (b : List MemeEntry)
    (h : fetchMemeCoins (rs.map Except.ok) = .ok b) (k : String × String) :
    (b.filter (fun m => memeKey m == k)).length = qualCount k rs := by
  rw [fetchMemeCoins, gatherE_map_ok] at h
  have h2 := processResults_count k rs [] b h
  simpa using h2

set_option maxRecDepth 2000 in
unseal Rat.add Rat.mul Rat.inv Rat.sub Rat.ofScientific in
/-- Witness for the amended C4 theorem at the duplicated pair. -/
theorem no_dedup_key_count_witness :
    fetchMemeCoins ([Resp.data [dupPair], Resp.data [dupPair]].map Except.ok)
      = .ok [mDup, mDup]
    ∧ (([mDup, mDup].filter
        (fun m => memeKey m == ("0xmeme", "ethereum"))).length
      = qualCount ("0xmeme", "ethereum") [Resp.data [dupPair], Resp.data [dupPair]]) :=
  ⟨by decide,
    no_dedup_key_count [Resp.data [dupPair], Resp.data [dupPair]] [mDup, mDup]
      (by decide) ("0xmeme", "ethereum")⟩

set_option maxRecDepth 2000 in
unseal Rat.add Rat.mul Rat.inv Rat.sub Rat.ofScientific in
/-- Witness for C7 at two concrete upserts of the same key with apys 10 and
12 at times 0 and 1. -/
theorem upsert_merge_refresh_witness :
    ((mkYE "a" 100 12).contract_address = (mkYE "a" 100 10).contract_address
      ∧ (mkYE "a" 100 12).chain = (mkYE "a" 100 10).chain
      ∧ (mkYE "a" 100 12).apy ≠ (mkYE "a" 100 10).apy
      ∧ 0 < 1)
    ∧ (∃ r1 r2 : OppRow,
        (upsertYield emptyOppDB (mkYE "a" 100 10) 0).rows = [r1]
        ∧ (upsertYield (upsertYield emptyOppDB (mkYE "a" 100 10) 0)
            (mkYE "a" 100 12) 1).rows = [r2]
        ∧ r2.apy = (mkYE "a" 100 12).apy ∧ r2.id = r1.id
        ∧ r1.apy = (mkYE "a" 100 10).apy
        ∧ r1.last_updated = 0 ∧ r2.last_updated = 1
        ∧ r1.last_updated < r2.last_updated) :=
  ⟨⟨rfl, rfl, by decide, by decide⟩,
    upsert_merge_refresh (mkYE "a" 100 10) (mkYE "a" 100 12) 0 1 rfl rfl
      (by decide) (by decide)⟩

end DefiVaultPro
